import Mathlib

/-!
Verification of log-watcher: `enhanced-watcher.js`

A shallow embedding of `src/enhanced-watcher.js` (classes `CircularBuffer` and
`EnhancedWatcher`) together with theorems about it.

Conventions of the embedding

* JavaScript strings are lists of characters (`List Char`); the file is assumed to hold
  single-byte characters, so the byte size of a file is the length of its content.
* Array slots are `Option α`: `none` is a hole (`undefined`), `some x` a stored record.
  Records are non-null objects, hence truthy, so the test `if (this.data[current])`
  succeeds exactly on `some _`.
* Capacities are positive integers.  (For `size = 0` JavaScript computes `NaN` indices;
  that case is outside the embedding.)
* `while` loops carry a fuel argument; a result `none` of a fuelled loop means that the
  loop did not finish within the fuel.
* Every `async` method is run atomically from call to completion.
-/

set_option autoImplicit false

namespace LogWatcher

/-! ## CircularBuffer (enhanced-watcher.js, lines 7-38) -/

/-- The fields of `CircularBuffer`. -/
structure CircularBuffer (α : Type) where
  size : Nat
  data : List (Option α)
  head : Nat
  tail : Nat
  isFull : Bool

namespace CircularBuffer

variable {α : Type}

/-- The constructor: `new Array(size)` is an array of `size` holes. -/
def new (size : Nat) : CircularBuffer α :=
  { size := size, data := List.replicate size none, head := 0, tail := 0, isFull := false }

/-- The method `push(item)`. -/
def push (s : CircularBuffer α) (item : α) : CircularBuffer α :=
  let data := s.data.set s.head (some item)
  let head := (s.head + 1) % s.size
  if head = s.tail then
    { s with data := data, head := head, tail := (s.tail + 1) % s.size, isFull := true }
  else
    { s with data := data, head := head }

/-- The `while (current !== this.head)` loop of `getAll`, with fuel. -/
def getAllLoop (s : CircularBuffer α) : Nat → Nat → List α → Option (List α)
  | 0, _, _ => none
  | fuel + 1, current, result =>
    if current = s.head then some result
    else
      getAllLoop s fuel ((current + 1) % s.size)
        (match s.data.getD current none with
         | some item => result ++ [item]
         | none => result)

/-- The method `getAll()`.  The loop visits at most `size - 1` slots before `current`
meets `head` (both stay below `size`), so `size` units of fuel are given. -/
def getAll (s : CircularBuffer α) : Option (List α) :=
  if s.head = s.tail ∧ s.isFull = false then some []
  else getAllLoop s s.size s.tail []

/-- Pushing a sequence of records one after the other. -/
def pushAll (s : CircularBuffer α) (items : List α) : CircularBuffer α :=
  items.foldl push s

/-- The shape of the state reached from a fresh buffer of capacity `N` by pushing `xs`:
`head` and `tail` are determined by the number of pushes, and each of the last `N` pushed
records sits in the slot given by its push index modulo `N`. -/
structure Reached (N : Nat) (xs : List α) (s : CircularBuffer α) : Prop where
  size_eq : s.size = N
  data_len : s.data.length = N
  head_eq : s.head = xs.length % N
  tail_eq : s.tail = if xs.length < N then 0 else (xs.length + 1) % N
  full_eq : s.isFull = decide (N ≤ xs.length)
  slots : ∀ i, i < xs.length → xs.length ≤ i + N → s.data.getD (i % N) none = xs[i]?

end CircularBuffer

/-! ## Strings and the file system -/

/-- The method `String.prototype.includes`: `pat` occurs in `s` as a contiguous block. -/
def includes : List Char → List Char → Bool
  | [], pat => pat.isPrefixOf []
  | c :: rest, pat => pat.isPrefixOf (c :: rest) || includes rest pat

/-- The call `content.split('\n')`, for any separator character: the pieces between
separators, empty pieces included (`''.split('\n')` is `['']`). -/
def split (sep : Char) : List Char → List (List Char)
  | [] => [[]]
  | c :: cs =>
    if c = sep then [] :: split sep cs
    else
      match split sep cs with
      | [] => [[c]]
      | piece :: pieces => (c :: piece) :: pieces

/-- The call `.filter(Boolean)` on an array of strings: the empty string is the only
falsy string. -/
def filterBoolean (lines : List (List Char)) : List (List Char) :=
  lines.filter (fun l => !l.isEmpty)

/-- The call `.slice(-count)` for a count `count ≥ 0`: the last `count` entries; since
`-0` is `0`, `slice(-0)` is the whole array. -/
def sliceLast {β : Type} (count : Nat) (xs : List β) : List β :=
  if count = 0 then xs else xs.drop (xs.length - count)

/-- Paths are strings. -/
abbrev Path := List Char

/-- The file system: a map from path to content. -/
abbrev FileSystem := Path → Option (List Char)

/-- The only failure of the modelled file system: the path does not exist. -/
inductive FsError where
  | ENOENT (path : Path)
  deriving DecidableEq, Repr

/-- The call `fs.promises.rename(oldPath, newPath)` on an existing `oldPath`. -/
def FileSystem.rename (fs : FileSystem) (oldPath newPath : Path) : FileSystem :=
  fun p => if p = newPath then fs oldPath else if p = oldPath then none else fs p

/-- The call `fs.promises.writeFile(path, content)`. -/
def FileSystem.writeFile (fs : FileSystem) (path : Path) (content : List Char) : FileSystem :=
  fun p => if p = path then some content else fs p

/-! ## EnhancedWatcher (enhanced-watcher.js, lines 40-258) -/

/-- The values of the `type` property of a parsed line. -/
inductive LogType where
  | ERROR
  | WARNING
  | INFO
  deriving DecidableEq, Repr

/-- The value of `line.match(/^\d+/)?.[0] || Date.now()`: the leading digits as a string,
or the clock value as a number. -/
inductive Timestamp where
  | digits (text : List Char)
  | clock (now : Nat)
  deriving DecidableEq, Repr

/-- The object returned by `parseLogLine`. -/
structure LogRecord where
  content : List Char
  timestamp : Timestamp
  type : LogType
  hash : List Char
  deriving DecidableEq, Repr

/-- The object `this.logStats`. -/
structure LogStats where
  totalLines : Nat
  errorCount : Nat
  warningCount : Nat
  lastUpdate : Nat
  averageUpdateInterval : ℚ

/-- The state of `this.watcher` and of `this.heartbeat`: never assigned, holding a live
handle, or holding a handle that has been closed (cleared). -/
inductive Handle where
  | unset
  | active
  | closed
  deriving DecidableEq, Repr

/-- The `options` argument of the constructor; `none` is an absent property. -/
structure Options where
  filePath : Option Path := none
  maxLines : Option Nat := none
  bufferSize : Option Nat := none
  compression : Option Bool := none
  rotationSize : Option Nat := none
  watchInterval : Option Nat := none

/-- The fields of `EnhancedWatcher`.  `orphanWatchers` and `orphanTimers` count the live
handles that a later `start()` overwrote without closing them. -/
structure EnhancedWatcher where
  filePath : Path
  maxLines : Nat
  bufferSize : Nat
  compressionEnabled : Bool
  rotationSize : Nat
  store : CircularBuffer LogRecord
  watchInterval : Nat
  logStats : LogStats
  watcher : Handle
  heartbeat : Handle
  orphanWatchers : Nat
  orphanTimers : Nat

/-- The events emitted by the watcher. -/
inductive Event where
  | update (lines : List LogRecord) (stats : LogStats)
  | fileRotated (newPath : Path)
  | error (err : FsError)
  | watcherStalled
  | started
  | stopped
  | restarted

/-- What one method call leaves behind: the watcher, the file system, the events emitted
in order, and the rotated files handed to `compressFile` (which runs out of band). -/
structure Outcome where
  watcher : EnhancedWatcher
  fs : FileSystem
  events : List Event
  compressions : List Path

/-- The expression `x || d` for a numeric option: absent and `0` are falsy. -/
def orDefault (x : Option Nat) (d : Nat) : Nat :=
  match x with
  | none => d
  | some 0 => d
  | some n => n

namespace EnhancedWatcher

/-- The constructor, called when the clock reads `now`. -/
def new (options : Options) (now : Nat) : EnhancedWatcher :=
  let maxLines := orDefault options.maxLines 1000
  { filePath :=
      (match options.filePath with
       | none => "test.log".data
       | some [] => "test.log".data
       | some p => p)
    maxLines := maxLines
    bufferSize := orDefault options.bufferSize 16384
    compressionEnabled := options.compression.getD false
    rotationSize := orDefault options.rotationSize (5 * 1024 * 1024)
    store := CircularBuffer.new maxLines
    watchInterval := orDefault options.watchInterval 1000
    logStats :=
      { totalLines := 0, errorCount := 0, warningCount := 0, lastUpdate := now,
        averageUpdateInterval := 0 }
    watcher := Handle.unset
    heartbeat := Handle.unset
    orphanWatchers := 0
    orphanTimers := 0 }

/-- The method `parseLogLine(line)` at clock value `now`, with `md5` the hex digest
`crypto.createHash('md5').update(line).digest('hex')`.  No operation in the `try` block
throws on a string, so the `catch` branch (which returns `null`, here `none`) is not
taken. -/
def parseLogLine (md5 : List Char → List Char) (stats : LogStats) (line : List Char)
    (now : Nat) : LogStats × Option LogRecord :=
  let stats :=
    if includes line "[ERROR]".data then { stats with errorCount := stats.errorCount + 1 }
    else if includes line "[WARNING]".data then
      { stats with warningCount := stats.warningCount + 1 }
    else stats
  (stats,
   some
    { content := line
      timestamp :=
        (match line.takeWhile Char.isDigit with
         | [] => Timestamp.clock now
         | d :: ds => Timestamp.digits (d :: ds))
      type :=
        if includes line "[ERROR]".data then LogType.ERROR
        else if includes line "[WARNING]".data then LogType.WARNING
        else LogType.INFO
      hash := md5 line })

/-- The method `getFileSize()`: the size of the file, `0` when `statSync` throws. -/
def getFileSize (w : EnhancedWatcher) (fs : FileSystem) : Nat :=
  match fs w.filePath with
  | some content => content.length
  | none => 0

/-- The method `readLastLines(count)`: the stream starts at offset
`max(0, getFileSize() - bufferSize)` and fails when the file does not exist. -/
def readLastLines (w : EnhancedWatcher) (fs : FileSystem) (count : Nat) :
    Except FsError (List (List Char)) :=
  let start := w.getFileSize fs - w.bufferSize
  match fs w.filePath with
  | none => Except.error (FsError.ENOENT w.filePath)
  | some file =>
    let content := file.drop start
    Except.ok (sliceLast count (filterBoolean (split '\n' content)))

/-- The method `checkFileRotation()` at clock value `now`. -/
def checkFileRotation (w : EnhancedWatcher) (fs : FileSystem) (now : Nat) : Outcome :=
  match fs w.filePath with
  | none => { watcher := w, fs := fs, events := [], compressions := [] }
  | some file =>
    if file.length ≥ w.rotationSize then
      let newPath := w.filePath ++ '.' :: Nat.toDigits 10 now
      let fs1 := fs.rename w.filePath newPath
      let compressions := if w.compressionEnabled then [newPath] else []
      let fs2 := fs1.writeFile w.filePath []
      { watcher := w, fs := fs2, events := [Event.fileRotated newPath],
        compressions := compressions }
    else { watcher := w, fs := fs, events := [], compressions := [] }

/-- One round of the `for (const line of newLines)` loop of `watch()`. -/
def watchLine (md5 : List Char → List Char) (now : Nat)
    (acc : EnhancedWatcher × List LogRecord) (line : List Char) :
    EnhancedWatcher × List LogRecord :=
  let (stats, parsedLine) := parseLogLine md5 acc.1.logStats line now
  let w := { acc.1 with logStats := stats }
  match parsedLine with
  | some rec =>
    ({ w with store := w.store.push rec,
              logStats := { w.logStats with totalLines := w.logStats.totalLines + 1 } },
     acc.2 ++ [rec])
  | none => (w, acc.2)

/-- The method `watch()` at clock value `now`. -/
def watch (md5 : List Char → List Char) (w : EnhancedWatcher) (fs : FileSystem)
    (now : Nat) : Outcome :=
  let currentSize := w.getFileSize fs
  if currentSize = 0 then { watcher := w, fs := fs, events := [], compressions := [] }
  else
    match w.readLastLines fs 10 with
    | Except.error err =>
      { watcher := w, fs := fs, events := [Event.error err], compressions := [] }
    | Except.ok newLines =>
      let (w1, parsedLines) := newLines.foldl (watchLine md5 now) (w, [])
      let stats :=
        { w1.logStats with
          averageUpdateInterval :=
            (w1.logStats.averageUpdateInterval + ((now : ℚ) - (w1.logStats.lastUpdate : ℚ))) / 2
          lastUpdate := now }
      let w2 := { w1 with logStats := stats }
      let events := if parsedLines.length > 0 then [Event.update parsedLines stats] else []
      let rotation := w2.checkFileRotation fs now
      { rotation with events := events ++ rotation.events }

/-- One round of the `for (const line of initialLines)` loop of `start()`. -/
def startLine (md5 : List Char → List Char) (now : Nat) (w : EnhancedWatcher)
    (line : List Char) : EnhancedWatcher :=
  let (stats, parsedLine) := parseLogLine md5 w.logStats line now
  let w := { w with logStats := stats }
  match parsedLine with
  | some rec =>
    { w with store := w.store.push rec,
             logStats := { w.logStats with totalLines := w.logStats.totalLines + 1 } }
  | none => w

/-- The method `start()` at clock value `now`; `none` when `getAll()` does not return. -/
def start (md5 : List Char → List Char) (w : EnhancedWatcher) (fs : FileSystem)
    (now : Nat) : Option Outcome :=
  match w.readLastLines fs w.maxLines with
  | Except.error err =>
    some { watcher := w, fs := fs, events := [Event.error err], compressions := [] }
  | Except.ok initialLines =>
    let w1 := initialLines.foldl (startLine md5 now) w
    let w2 :=
      { w1 with
        watcher := Handle.active
        heartbeat := Handle.active
        orphanWatchers := if w1.watcher = Handle.active then w1.orphanWatchers + 1
                          else w1.orphanWatchers
        orphanTimers := if w1.heartbeat = Handle.active then w1.orphanTimers + 1
                        else w1.orphanTimers }
    match w2.store.getAll with
    | none => none
    | some lines =>
      some { watcher := w2, fs := fs,
             events := [Event.update lines w2.logStats, Event.started],
             compressions := [] }

/-- The method `stop()`: a handle that was assigned is closed (closing twice is allowed),
then `stopped` is emitted. -/
def stop (w : EnhancedWatcher) (fs : FileSystem) : Outcome :=
  let watcher := match w.watcher with
    | Handle.unset => Handle.unset
    | _ => Handle.closed
  let heartbeat := match w.heartbeat with
    | Handle.unset => Handle.unset
    | _ => Handle.closed
  { watcher := { w with watcher := watcher, heartbeat := heartbeat }, fs := fs,
    events := [Event.stopped], compressions := [] }

/-- The method `restart()`. -/
def restart (md5 : List Char → List Char) (w : EnhancedWatcher) (fs : FileSystem)
    (now : Nat) : Option Outcome :=
  let stopped := w.stop fs
  match start md5 stopped.watcher stopped.fs now with
  | none => none
  | some started =>
    some { started with events := stopped.events ++ started.events ++ [Event.restarted] }

/-- One firing of the heartbeat interval callback at clock value `now`.  The callback
exists only while some interval set by `start()` is still armed. -/
def heartbeatTick (md5 : List Char → List Char) (w : EnhancedWatcher) (fs : FileSystem)
    (now : Nat) : Option Outcome :=
  if w.heartbeat = Handle.active ∨ 0 < w.orphanTimers then
    if (now : Int) - (w.logStats.lastUpdate : Int) > (w.watchInterval : Int) * 3 then
      match restart md5 w fs now with
      | none => none
      | some out => some { out with events := Event.watcherStalled :: out.events }
    else some { watcher := w, fs := fs, events := [], compressions := [] }
  else some { watcher := w, fs := fs, events := [], compressions := [] }

/-- The object returned by `getStats()`. -/
structure Stats where
  logStats : LogStats
  currentBufferSize : Nat
  maxBufferSize : Nat
  fileSize : Nat

/-- The method `getStats()`; `none` when `getAll()` does not return. -/
def getStats (w : EnhancedWatcher) (fs : FileSystem) : Option Stats :=
  match w.store.getAll with
  | none => none
  | some lines =>
    some { logStats := w.logStats, currentBufferSize := lines.length,
           maxBufferSize := w.maxLines, fileSize := w.getFileSize fs }

end EnhancedWatcher

/-! ## Definitions used to state the theorems -/

/-- The non-empty lines of a text. -/
def fileLines (content : List Char) : List (List Char) :=
  filterBoolean (split '\n' content)

/-- The `type` that `parseLogLine` gives to a line. -/
def lineType (line : List Char) : LogType :=
  if includes line "[ERROR]".data then LogType.ERROR
  else if includes line "[WARNING]".data then LogType.WARNING
  else LogType.INFO

/-- The record that `parseLogLine` builds for a line at clock value `now`. -/
def recordOf (md5 : List Char → List Char) (now : Nat) (line : List Char) : LogRecord :=
  { content := line
    timestamp :=
      (match line.takeWhile Char.isDigit with
       | [] => Timestamp.clock now
       | d :: ds => Timestamp.digits (d :: ds))
    type := lineType line
    hash := md5 line }

/-- A file system holding one file. -/
def singleFile (path : Path) (content : List Char) : FileSystem :=
  fun p => if p = path then some content else none

namespace EnhancedWatcher

/-- The watcher after a batch of lines went through the loop of `watch()` or `start()`. -/
def ingested (md5 : List Char → List Char) (now : Nat) (w : EnhancedWatcher)
    (lines : List (List Char)) : EnhancedWatcher :=
  { w with
    store := w.store.pushAll (lines.map (recordOf md5 now))
    logStats :=
      { w.logStats with
        totalLines := w.logStats.totalLines + lines.length
        errorCount := w.logStats.errorCount + lines.countP (fun l => lineType l = LogType.ERROR)
        warningCount :=
          w.logStats.warningCount + lines.countP (fun l => lineType l = LogType.WARNING) } }

/-- The watcher at the end of a `watch()` cycle that read `lines`. -/
def cycled (md5 : List Char → List Char) (now : Nat) (w : EnhancedWatcher)
    (lines : List (List Char)) : EnhancedWatcher :=
  let w1 := ingested md5 now w lines
  { w1 with
    logStats :=
      { w1.logStats with
        averageUpdateInterval :=
          (w.logStats.averageUpdateInterval + ((now : ℚ) - (w.logStats.lastUpdate : ℚ))) / 2
        lastUpdate := now } }

/-- The operations that reach the watcher, each with the file system and the clock value
it finds. -/
inductive Op where
  | start (fs : FileSystem) (now : Nat)
  | watch (fs : FileSystem) (now : Nat)
  | stop (fs : FileSystem)
  | heartbeat (fs : FileSystem) (now : Nat)

/-- One operation; `none` when it does not return. -/
def step (md5 : List Char → List Char) (w : EnhancedWatcher) : Op → Option Outcome
  | Op.start fs now => start md5 w fs now
  | Op.watch fs now => some (watch md5 w fs now)
  | Op.stop fs => some (w.stop fs)
  | Op.heartbeat fs now => heartbeatTick md5 w fs now

/-- A sequence of operations, from left to right. -/
def run (md5 : List Char → List Char) : EnhancedWatcher → List Op → Option EnhancedWatcher
  | w, [] => some w
  | w, op :: ops =>
    match step md5 w op with
    | none => none
    | some out => run md5 out.watcher ops

/-- Successive `watch()` cycles; cycle `c` finds the file system `c.1` at clock value `c.2`. -/
def runCycles (md5 : List Char → List Char) (w : EnhancedWatcher)
    (cycles : List (FileSystem × Nat)) : EnhancedWatcher :=
  cycles.foldl (fun w c => (watch md5 w c.1 c.2).watcher) w

/-- The store of the watcher is in a state reached by pushes from a fresh buffer of
capacity `maxLines ≥ 1`. -/
def StoreReached (w : EnhancedWatcher) : Prop :=
  1 ≤ w.maxLines ∧ ∃ xs : List LogRecord, CircularBuffer.Reached w.maxLines xs w.store

/-- The three counters of `b` are at least those of `a`. -/
def CountersLe (a b : EnhancedWatcher) : Prop :=
  a.logStats.totalLines ≤ b.logStats.totalLines ∧
  a.logStats.errorCount ≤ b.logStats.errorCount ∧
  a.logStats.warningCount ≤ b.logStats.warningCount

/-- The content of the file at `path`, empty when the file does not exist. -/
def watchedFile (path : Path) (fs : FileSystem) : List Char :=
  (fs path).getD []

/-- The lines that the cycles find in the file at `path`, cycle after cycle. -/
def linesSeen (path : Path) (cycles : List (FileSystem × Nat)) : List (List Char) :=
  cycles.flatMap (fun c => fileLines (watchedFile path c.1))

/-- The records of the lines that the cycles find in the file at `path`. -/
def recordsSeen (md5 : List Char → List Char) (path : Path)
    (cycles : List (FileSystem × Nat)) : List LogRecord :=
  cycles.flatMap (fun c => (fileLines (watchedFile path c.1)).map (recordOf md5 c.2))

end EnhancedWatcher

/-- A stand-in for the MD5 digest in concrete evaluations. -/
def noDigest : List Char → List Char :=
  fun _ => []

/-- A watcher on `test.log` whose read window is 5 bytes. -/
def demoWindowWatcher : EnhancedWatcher :=
  EnhancedWatcher.new { bufferSize := some 5 } 0

/-- A watcher on `test.log` whose rotation threshold is 3 bytes. -/
def demoRotationWatcher : EnhancedWatcher :=
  EnhancedWatcher.new { rotationSize := some 3 } 0

/-- A watcher on `test.log` with the default options, constructed at clock value 0. -/
def demoWatcher : EnhancedWatcher :=
  EnhancedWatcher.new {} 0

/-- Two cycles on `test.log`: the file holds two lines at clock value 5, and the same two
lines followed by a third at clock value 9. -/
def demoCycles : List (FileSystem × Nat) :=
  [(singleFile "test.log".data "100 [INFO] a\n200 [ERROR] b".data, 5),
   (singleFile "test.log".data "100 [INFO] a\n200 [ERROR] b\n300 [WARNING] c".data, 9)]

/-! ## Theorems: CircularBuffer -/

namespace CircularBuffer

variable {α : Type}

theorem reached_new {N : Nat} (hN : 1 ≤ N) : Reached N ([] : List α) (new N) where
  size_eq := rfl
  data_len := by simp [new]
  head_eq := by simp [new]
  tail_eq := by
    have h : 0 < N := hN
    simp [new, h]
  full_eq := by
    have h : N ≠ 0 := by omega
    simp [new, h]
  slots := by intro i hi; simp at hi

theorem reached_push {N : Nat} (hN : 1 ≤ N) {xs : List α} {s : CircularBuffer α}
    (h : Reached N xs s) (x : α) : Reached N (xs ++ [x]) (s.push x) := by
  obtain ⟨hsize, hlen, hhead, htail, hfull, hslots⟩ := h
  have hheadlt : s.head < N := by rw [hhead]; exact Nat.mod_lt _ hN
  have hslots' : ∀ i, i < (xs ++ [x]).length → (xs ++ [x]).length ≤ i + N →
      (s.data.set s.head (some x)).getD (i % N) none = (xs ++ [x])[i]? := by
    intro i hi hiN
    simp only [List.length_append, List.length_singleton] at hi hiN
    rw [List.getD_eq_getElem?_getD, List.getElem?_set]
    by_cases hix : i = xs.length
    · subst hix
      simp [hhead, hlen, hheadlt, Nat.mod_lt _ hN]
    · have hilt : i < xs.length := by omega
      have hne : s.head ≠ i % N := by
        rw [hhead]
        intro heq
        have h1 : (xs.length - i) % N = 0 := by
          have := Nat.sub_mod_eq_zero_of_mod_eq heq
          exact this
        have h2 : xs.length - i < N := by omega
        rw [Nat.mod_eq_of_lt h2] at h1
        omega
      rw [if_neg hne, ← List.getD_eq_getElem?_getD, hslots i hilt (by omega)]
      rw [List.getElem?_append_left hilt]
  have hstep : (s.head + 1) % s.size = (xs.length + 1) % N := by
    rw [hsize, hhead, Nat.mod_add_mod]
  unfold push
  simp only [hstep]
  by_cases hc : (xs.length + 1) % N = s.tail
  · rw [if_pos hc]
    have hge : N ≤ xs.length + 1 := by
      by_contra hlt
      push_neg at hlt
      rw [htail, if_pos (by omega), Nat.mod_eq_of_lt hlt] at hc
      omega
    refine ⟨hsize, by simpa using hlen, by simp, ?_, ?_, hslots'⟩
    · simp only [List.length_append, List.length_singleton]
      rw [if_neg (by omega), hsize, ← hc, Nat.mod_add_mod]
    · simp only [List.length_append, List.length_singleton]
      simp [hge]
  · rw [if_neg hc]
    have hlt : xs.length + 1 < N := by
      by_contra hge
      push_neg at hge
      apply hc
      rw [htail]
      by_cases h1 : xs.length < N
      · have : xs.length + 1 = N := by omega
        rw [if_pos h1, this, Nat.mod_self]
      · rw [if_neg h1]
    refine ⟨hsize, by simpa using hlen, by simp, ?_, ?_, hslots'⟩
    · simp only [List.length_append, List.length_singleton]
      rw [if_pos hlt, htail, if_pos (by omega)]
    · simp only [List.length_append, List.length_singleton]
      have : ¬ N ≤ xs.length + 1 := by omega
      have h2 : ¬ N ≤ xs.length := by omega
      simp [this, hfull, h2]

theorem reached_pushAll_aux {N : Nat} (hN : 1 ≤ N) (xs : List α) :
    ∀ (ys : List α) (s : CircularBuffer α), Reached N ys s →
      Reached N (ys ++ xs) (pushAll s xs) := by
  induction xs with
  | nil => intro ys s h; simpa [pushAll] using h
  | cons x xs ih =>
    intro ys s h
    have h1 := ih (ys ++ [x]) (s.push x) (reached_push hN h x)
    simpa [pushAll] using h1

theorem reached_pushAll {N : Nat} (hN : 1 ≤ N) (xs : List α) :
    Reached N xs (pushAll (new N) xs) := by
  simpa using reached_pushAll_aux hN xs [] (new N) (reached_new hN)

theorem getAllLoop_reached {N : Nat} {xs : List α} {s : CircularBuffer α}
    (h : Reached N xs s) :
    ∀ (k i fuel : Nat) (acc : List α), i + k = xs.length → k < N → k < fuel →
      getAllLoop s fuel (i % N) acc = some (acc ++ xs.drop i) := by
  intro k
  induction k with
  | zero =>
    intro i fuel acc hik _ hfuel
    obtain ⟨fuel, rfl⟩ : ∃ f, fuel = f + 1 := ⟨fuel - 1, by omega⟩
    have hi : i = xs.length := by omega
    subst hi
    simp [getAllLoop, h.head_eq]
  | succ k ih =>
    intro i fuel acc hik hk hfuel
    obtain ⟨fuel, rfl⟩ : ∃ f, fuel = f + 1 := ⟨fuel - 1, by omega⟩
    have hilt : i < xs.length := by omega
    have hne : i % N ≠ s.head := by
      rw [h.head_eq]
      intro heq
      have h1 : (xs.length - i) % N = 0 := Nat.sub_mod_eq_zero_of_mod_eq heq.symm
      rw [Nat.mod_eq_of_lt (by omega)] at h1
      omega
    rw [getAllLoop, if_neg hne, h.slots i hilt (by omega), List.getElem?_eq_getElem hilt]
    simp only
    rw [h.size_eq, Nat.mod_add_mod, ih (i + 1) fuel _ (by omega) (by omega) (by omega)]
    rw [List.append_assoc, List.singleton_append, ← List.drop_eq_getElem_cons hilt]

/-- In a state reached by pushing `xs`, `getAll` returns the last `N - 1` pushed records
(all of them when fewer were pushed). -/
theorem getAll_of_reached {N : Nat} (hN : 1 ≤ N) {xs : List α} {s : CircularBuffer α}
    (h : Reached N xs s) : s.getAll = some (xs.drop (xs.length - (N - 1))) := by
  have htail : s.tail = (xs.length - (N - 1)) % N := by
    rw [h.tail_eq]
    by_cases h1 : xs.length < N
    · rw [if_pos h1]
      have : xs.length - (N - 1) = 0 := by omega
      rw [this, Nat.zero_mod]
    · rw [if_neg h1]
      have : xs.length + 1 = (xs.length - (N - 1)) + N := by omega
      rw [this, Nat.add_mod_right]
  have hloop := getAllLoop_reached h (xs.length - (xs.length - (N - 1)))
    (xs.length - (N - 1)) s.size [] (by omega) (by omega) (by rw [h.size_eq]; omega)
  unfold getAll
  by_cases hc : s.head = s.tail ∧ s.isFull = false
  · rw [if_pos hc]
    have hfull := h.full_eq
    rw [hc.2] at hfull
    have hlt : xs.length < N := by
      by_contra hge
      push_neg at hge
      simp [hge] at hfull
    have hhead := hc.1
    rw [h.head_eq, h.tail_eq, if_pos hlt, Nat.mod_eq_of_lt hlt] at hhead
    have : xs = [] := List.length_eq_zero.mp hhead
    simp [this]
  · rw [if_neg hc, htail, hloop]
    simp

/-- After pushing `xs` onto a fresh buffer of capacity `N`, `getAll` returns the last
`N - 1` pushed records (all of them when fewer were pushed). -/
theorem getAll_pushAll {N : Nat} (hN : 1 ≤ N) (xs : List α) :
    (pushAll (new N) xs).getAll = some (xs.drop (xs.length - (N - 1))) :=
  getAll_of_reached hN (reached_pushAll hN xs)

/-- C1: on the input `N = 3`, `M = 4` (records labelled `1, 2, 3, 4`) `getAll()` returns
only the last two records, not the last three; with `N = 1` it returns no record at all. -/
theorem C1_overflow_keeps_one_less :
    (pushAll (new 3) [1, 2, 3, 4]).getAll = some [3, 4] ∧
      (pushAll (new 1) [1, 2]).getAll = some [] := by
  decide

/-- C2: on the input `M = N = 3` (records labelled `1, 2, 3`) `getAll()` returns two
records: the third push already evicts the first record. -/
theorem C2_exact_fill_drops_oldest :
    (pushAll (new 3) [1, 2, 3]).getAll = some [2, 3] ∧
      (pushAll (new 3) [1, 2, 3]).isFull = true := by
  decide

/-- C3: ring invariant.  For every capacity `N ≥ 2` and every state reached from a fresh
buffer by pushing a sequence `xs` of records, `getAll()` returns a list `kept` of length at
most `N` that is a suffix of `xs` (the retained records, oldest to newest; precisely the
last `N - 1` pushed); and when `isFull` is set, one further `push(x)` turns `getAll()` into
`kept` without its first element, followed by `x`. -/
theorem C3_ring_invariant (N : Nat) (hN : 2 ≤ N) (xs : List α) :
    ∃ kept : List α,
      (pushAll (new N) xs).getAll = some kept ∧
      kept.length ≤ N ∧
      kept <:+ xs ∧
      kept = xs.drop (xs.length - (N - 1)) ∧
      ((pushAll (new N) xs).isFull = true →
        ∀ x : α, ((pushAll (new N) xs).push x).getAll = some (kept.drop 1 ++ [x])) := by
  have hN1 : 1 ≤ N := by omega
  have hr := @reached_pushAll α N hN1 xs
  refine ⟨xs.drop (xs.length - (N - 1)), getAll_of_reached hN1 hr, ?_, List.drop_suffix _ _,
    rfl, ?_⟩
  · rw [List.length_drop]; omega
  · intro hfull x
    have hge : N ≤ xs.length := by
      have := hr.full_eq
      rw [hfull] at this
      simpa using this.symm
    rw [getAll_of_reached hN1 (reached_push hN1 hr x)]
    congr 1
    rw [List.drop_drop, List.length_append, List.length_singleton]
    have h1 : xs.length + 1 - (N - 1) = 1 + (xs.length - (N - 1)) := by omega
    rw [h1, List.drop_append_of_le_length (by omega), Nat.add_comm]

/-- C3 at capacity `2` after the pushes `1, 2, 3`: the buffer is full. -/
theorem C3_ring_invariant_witness :
    (pushAll (new 2) [1, 2, 3]).isFull = true ∧
    ∃ kept : List Nat,
      (pushAll (new 2) [1, 2, 3]).getAll = some kept ∧
      kept.length ≤ 2 ∧
      kept <:+ [1, 2, 3] ∧
      kept = [1, 2, 3].drop ([1, 2, 3].length - (2 - 1)) ∧
      ((pushAll (new 2) [1, 2, 3]).isFull = true →
        ∀ x : Nat, ((pushAll (new 2) [1, 2, 3]).push x).getAll = some (kept.drop 1 ++ [x])) :=
  ⟨by decide, C3_ring_invariant 2 (by decide) [1, 2, 3]⟩

end CircularBuffer

/-! ## Theorems: line classification -/

/-- The function `includes` decides contiguous containment. -/
theorem includes_iff_contains (s pat : List Char) : includes s pat = true ↔ pat <:+: s := by
  induction s with
  | nil => simp [includes, List.isPrefixOf_iff_prefix]
  | cons c rest ih =>
    simp [includes, List.isPrefixOf_iff_prefix, List.infix_cons_iff, ih]

namespace EnhancedWatcher

/-- C4: classification is total and follows the precedence ERROR > WARNING > INFO.  For
every line, `parseLogLine` returns a record (not the `null` failure value) whose content
is the line and whose type is ERROR when the line contains `[ERROR]` (whether or not
`[WARNING]` occurs too), WARNING when it contains `[WARNING]` and not `[ERROR]`, and INFO
when it contains neither marker. -/
theorem C4_parseLogLine_classification (md5 : List Char → List Char) (stats : LogStats)
    (line : List Char) (now : Nat) :
    ∃ rec : LogRecord,
      (parseLogLine md5 stats line now).2 = some rec ∧
      rec.content = line ∧
      ("[ERROR]".data <:+: line → rec.type = LogType.ERROR) ∧
      ("[WARNING]".data <:+: line ∧ ¬ "[ERROR]".data <:+: line → rec.type = LogType.WARNING) ∧
      (¬ "[ERROR]".data <:+: line ∧ ¬ "[WARNING]".data <:+: line → rec.type = LogType.INFO) := by
  refine ⟨_, rfl, rfl, ?_, ?_, ?_⟩
  · intro he
    have := (includes_iff_contains line "[ERROR]".data).mpr he
    simp [this]
  · rintro ⟨hw, he⟩
    have h1 : includes line "[ERROR]".data = false := by
      rw [← Bool.not_eq_true, includes_iff_contains]; exact he
    have h2 := (includes_iff_contains line "[WARNING]".data).mpr hw
    simp [h1, h2]
  · rintro ⟨he, hw⟩
    have h1 : includes line "[ERROR]".data = false := by
      rw [← Bool.not_eq_true, includes_iff_contains]; exact he
    have h2 : includes line "[WARNING]".data = false := by
      rw [← Bool.not_eq_true, includes_iff_contains]; exact hw
    simp [h1, h2]

end EnhancedWatcher

/-! ## Theorems: reading the tail of the file -/

theorem split_ne_nil (sep : Char) (s : List Char) : split sep s ≠ [] := by
  cases s with
  | nil => simp [split]
  | cons c cs =>
    unfold split
    split_ifs
    · simp
    · cases split sep cs <;> simp

/-- Splitting a text that is cut in two: the pieces of the second part are the last pieces
of the whole, except that the first of them is only the end of a piece of the whole. -/
theorem split_append (sep : Char) (pre window : List Char) :
    ∃ (init : List (List Char)) (l h : List Char) (t : List (List Char)),
      split sep window = h :: t ∧ split sep (pre ++ window) = init ++ (l ++ h) :: t := by
  induction pre with
  | nil =>
    obtain ⟨h, t, ht⟩ := List.exists_cons_of_ne_nil (split_ne_nil sep window)
    exact ⟨[], [], h, t, ht, by simp [ht]⟩
  | cons c pre ih =>
    obtain ⟨init, l, h, t, hw, hall⟩ := ih
    by_cases hc : c = sep
    · refine ⟨[] :: init, l, h, t, hw, ?_⟩
      simp [split, hc, hall]
    · cases init with
      | nil =>
        refine ⟨[], c :: l, h, t, hw, ?_⟩
        simp [split, hc, hall]
      | cons i is =>
        refine ⟨(c :: i) :: is, l, h, t, hw, ?_⟩
        simp [split, hc, hall]

theorem sliceLast_suffix {β : Type} (count : Nat) (xs : List β) : sliceLast count xs <:+ xs := by
  unfold sliceLast
  split_ifs
  · exact List.suffix_refl _
  · exact List.drop_suffix _ _

theorem sliceLast_length {β : Type} (count : Nat) (h : 1 ≤ count) (xs : List β) :
    (sliceLast count xs).length ≤ count := by
  unfold sliceLast
  rw [if_neg (by omega), List.length_drop]
  omega

theorem mem_filterBoolean {l : List Char} {ls : List (List Char)} :
    l ∈ filterBoolean ls ↔ l ∈ ls ∧ l ≠ [] := by
  simp [filterBoolean, List.isEmpty_iff]

/-- The pieces of `split`, joined with the separator, give the text back, and no piece
holds the separator. -/
theorem split_spec (sep : Char) (s : List Char) :
    List.intercalate [sep] (split sep s) = s ∧ ∀ p ∈ split sep s, sep ∉ p := by
  induction s with
  | nil => simp [split, List.intercalate]
  | cons c cs ih =>
    obtain ⟨h, t, ht⟩ := List.exists_cons_of_ne_nil (split_ne_nil sep cs)
    rw [ht] at ih
    by_cases hc : c = sep
    · subst hc
      constructor
      · simp only [split, if_true, ht]
        have := ih.1
        simp only [List.intercalate] at *
        simp [List.intersperse, this]
      · intro p hp
        simp only [split, if_true, ht, List.mem_cons] at hp
        rcases hp with rfl | hp
        · simp
        · exact ih.2 p (by simpa using hp)
    · constructor
      · simp only [split, if_neg hc, ht]
        have := ih.1
        cases t with
        | nil => simpa [List.intercalate, List.intersperse] using this
        | cons t1 ts => simpa [List.intercalate, List.intersperse] using this
      · intro p hp
        simp only [split, if_neg hc, ht, List.mem_cons] at hp
        rcases hp with rfl | hp
        · have := ih.2 h (by simp)
          simp [this, Ne.symm hc]
        · exact ih.2 p (by simp [hp])

namespace EnhancedWatcher

/-- C6 (amended): for every file content, every `bufferSize` and every `K ≥ 1`,
`readLastLines(K)` returns the last `min K n` of the `n` non-empty lines of the window (the
file content from offset `max(0, fileSize - bufferSize)`), none of them empty, in order.
Either the result is a suffix of the file's non-empty lines, or its first entry is the end
of a line of the file (the window starts inside that line) and the entries after it are a
suffix of the file's non-empty lines.  When the file fits in the window the result is a
suffix of the file's non-empty lines. -/
theorem C6_readLastLines_window (w : EnhancedWatcher) (fs : FileSystem) (file : List Char)
    (K : Nat) (hfile : fs w.filePath = some file) (hK : 1 ≤ K) :
    ∃ r : List (List Char),
      w.readLastLines fs K = Except.ok r ∧
      r.length = min K (fileLines (file.drop (file.length - w.bufferSize))).length ∧
      (∀ l ∈ r, l ≠ []) ∧
      r <:+ fileLines (file.drop (file.length - w.bufferSize)) ∧
      (r <:+ fileLines file ∨
        ∃ (h : List Char) (t : List (List Char)),
          r = h :: t ∧ t <:+ fileLines file ∧ ∃ l ∈ fileLines file, h <:+ l) ∧
      (file.length ≤ w.bufferSize → r <:+ fileLines file) := by
  have hread : w.readLastLines fs K =
      Except.ok (sliceLast K (fileLines (file.drop (file.length - w.bufferSize)))) := by
    simp [readLastLines, getFileSize, hfile, fileLines]
  have hlen : (sliceLast K (fileLines (file.drop (file.length - w.bufferSize)))).length =
      min K (fileLines (file.drop (file.length - w.bufferSize))).length := by
    unfold sliceLast
    rw [if_neg (by omega), List.length_drop]
    omega
  have hsuf := sliceLast_suffix K (fileLines (file.drop (file.length - w.bufferSize)))
  generalize sliceLast K (fileLines (file.drop (file.length - w.bufferSize))) = r at hread hlen hsuf
  refine ⟨r, hread, hlen, ?_, hsuf, ?_, ?_⟩
  · intro l hl
    exact (mem_filterBoolean.mp (hsuf.subset hl)).2
  · obtain ⟨init, l, h, t, hw, hall⟩ :=
      split_append '\n' (file.take (file.length - w.bufferSize))
        (file.drop (file.length - w.bufferSize))
    rw [List.take_append_drop] at hall
    have htail : filterBoolean t <:+ fileLines file := by
      unfold fileLines
      rw [hall]
      unfold filterBoolean
      rw [List.filter_append, List.filter_cons]
      split_ifs
      · exact (List.suffix_cons _ _).trans (List.suffix_append _ _)
      · exact List.suffix_append _ _
    have hlines : fileLines (file.drop (file.length - w.bufferSize)) =
        if h = [] then filterBoolean t else h :: filterBoolean t := by
      unfold fileLines
      rw [hw]
      unfold filterBoolean
      rw [List.filter_cons]
      cases h <;> simp
    by_cases hh : h = []
    · left
      rw [hlines, if_pos hh] at hsuf
      exact hsuf.trans htail
    · rw [hlines, if_neg hh, List.suffix_cons_iff] at hsuf
      rcases hsuf with heq | hsuf
      · right
        refine ⟨h, filterBoolean t, heq, htail, l ++ h, ?_, List.suffix_append _ _⟩
        unfold fileLines
        rw [hall]
        refine mem_filterBoolean.mpr ⟨by simp, ?_⟩
        simp [hh]
      · left
        exact hsuf.trans htail
  · intro hle
    rw [Nat.sub_eq_zero_of_le hle, List.drop_zero] at hsuf
    exact hsuf

/-- C6 (amended) on the file `abc\ndef` read through a window of 5 bytes with `K = 2`. -/
theorem C6_readLastLines_window_witness :
    singleFile "test.log".data "abc\ndef".data demoWindowWatcher.filePath
      = some "abc\ndef".data ∧
    1 ≤ 2 ∧
    ∃ r : List (List Char),
      demoWindowWatcher.readLastLines (singleFile "test.log".data "abc\ndef".data) 2
        = Except.ok r ∧
      r.length = min 2 (fileLines ("abc\ndef".data.drop
        ("abc\ndef".data.length - demoWindowWatcher.bufferSize))).length ∧
      (∀ l ∈ r, l ≠ []) ∧
      r <:+ fileLines ("abc\ndef".data.drop
        ("abc\ndef".data.length - demoWindowWatcher.bufferSize)) ∧
      (r <:+ fileLines "abc\ndef".data ∨
        ∃ (h : List Char) (t : List (List Char)),
          r = h :: t ∧ t <:+ fileLines "abc\ndef".data ∧
            ∃ l ∈ fileLines "abc\ndef".data, h <:+ l) ∧
      ("abc\ndef".data.length ≤ demoWindowWatcher.bufferSize → r <:+ fileLines "abc\ndef".data) :=
  ⟨rfl, by decide,
    C6_readLastLines_window demoWindowWatcher (singleFile "test.log".data "abc\ndef".data)
      "abc\ndef".data 2 rfl (by decide)⟩

/-- C6 fails as stated: on the file `abc\ndef` with `bufferSize = 5` and `K = 2` the window
starts inside the first line, and `readLastLines` returns `c` and `def`; `c` is not a line
of the file, and the result is not a suffix of the file's non-empty lines. -/
theorem C6_window_may_cut_a_line :
    demoWindowWatcher.readLastLines (singleFile "test.log".data "abc\ndef".data) 2
      = Except.ok ["c".data, "def".data] ∧
    fileLines "abc\ndef".data = ["abc".data, "def".data] ∧
    ¬ (["c".data, "def".data] <:+ fileLines "abc\ndef".data) ∧
    "c".data ∉ split '\n' "abc\ndef".data := by
  refine ⟨rfl, by decide, ?_, by decide⟩
  decide

end EnhancedWatcher

/-! ## Theorems: the watcher -/

namespace EnhancedWatcher

theorem parseLogLine_fst (md5 : List Char → List Char) (stats : LogStats) (line : List Char)
    (now : Nat) :
    (parseLogLine md5 stats line now).1 =
      { stats with
        errorCount := stats.errorCount + (if lineType line = LogType.ERROR then 1 else 0)
        warningCount :=
          stats.warningCount + (if lineType line = LogType.WARNING then 1 else 0) } := by
  unfold parseLogLine lineType
  by_cases he : includes line "[ERROR]".data = true
  · simp [he]
  · by_cases hw : includes line "[WARNING]".data = true
    · simp [he, hw]
    · simp [he, hw]

theorem parseLogLine_snd (md5 : List Char → List Char) (stats : LogStats) (line : List Char)
    (now : Nat) : (parseLogLine md5 stats line now).2 = some (recordOf md5 now line) := rfl

theorem ingested_nil (md5 : List Char → List Char) (now : Nat) (w : EnhancedWatcher) :
    ingested md5 now w [] = w := by
  simp [ingested, CircularBuffer.pushAll]

theorem ingested_cons (md5 : List Char → List Char) (now : Nat) (w : EnhancedWatcher)
    (line : List Char) (lines : List (List Char)) :
    ingested md5 now w (line :: lines) = ingested md5 now (ingested md5 now w [line]) lines := by
  simp only [ingested, CircularBuffer.pushAll, List.map_cons, List.foldl_cons, List.map_nil,
    List.foldl_nil, List.length_cons, List.length_nil, List.countP_cons, List.countP_nil]
  congr 2 <;> omega

theorem startLine_eq (md5 : List Char → List Char) (now : Nat) (w : EnhancedWatcher)
    (line : List Char) : startLine md5 now w line = ingested md5 now w [line] := by
  simp only [startLine, parseLogLine_fst, parseLogLine_snd, ingested, CircularBuffer.pushAll,
    List.map_cons, List.map_nil, List.foldl_cons, List.foldl_nil, List.length_singleton,
    List.countP_cons, List.countP_nil, decide_eq_true_eq, Nat.zero_add]

theorem startLine_foldl (md5 : List Char → List Char) (now : Nat) (lines : List (List Char)) :
    ∀ w : EnhancedWatcher, lines.foldl (startLine md5 now) w = ingested md5 now w lines := by
  induction lines with
  | nil => intro w; rw [ingested_nil]; rfl
  | cons line lines ih =>
    intro w
    rw [List.foldl_cons, ih, startLine_eq, ← ingested_cons]

theorem watchLine_eq (md5 : List Char → List Char) (now : Nat)
    (acc : EnhancedWatcher × List LogRecord) (line : List Char) :
    watchLine md5 now acc line = (ingested md5 now acc.1 [line], acc.2 ++ [recordOf md5 now line]) := by
  simp only [watchLine, parseLogLine_fst, parseLogLine_snd, ingested, CircularBuffer.pushAll,
    List.map_cons, List.map_nil, List.foldl_cons, List.foldl_nil, List.length_singleton,
    List.countP_cons, List.countP_nil, decide_eq_true_eq, Nat.zero_add]

theorem watchLine_foldl (md5 : List Char → List Char) (now : Nat) (lines : List (List Char)) :
    ∀ acc : EnhancedWatcher × List LogRecord,
      lines.foldl (watchLine md5 now) acc =
        (ingested md5 now acc.1 lines, acc.2 ++ lines.map (recordOf md5 now)) := by
  induction lines with
  | nil => intro acc; simp [ingested_nil]
  | cons line lines ih =>
    intro acc
    rw [List.foldl_cons, ih, watchLine_eq]
    simp only [List.map_cons, List.append_assoc, List.singleton_append]
    rw [← ingested_cons]

theorem checkFileRotation_watcher (w : EnhancedWatcher) (fs : FileSystem) (now : Nat) :
    (w.checkFileRotation fs now).watcher = w := by
  unfold checkFileRotation
  cases fs w.filePath with
  | none => rfl
  | some file =>
    simp only
    split_ifs <;> rfl

theorem readLastLines_of_file (w : EnhancedWatcher) (fs : FileSystem) (count : Nat)
    {file : List Char} (hfile : fs w.filePath = some file) :
    w.readLastLines fs count =
      Except.ok (sliceLast count (fileLines (file.drop (file.length - w.bufferSize)))) := by
  simp [readLastLines, getFileSize, hfile, fileLines]

theorem watch_of_empty (md5 : List Char → List Char) (w : EnhancedWatcher) (fs : FileSystem)
    (now : Nat) (h : w.getFileSize fs = 0) : (watch md5 w fs now).watcher = w := by
  simp [watch, h]

theorem watch_of_file (md5 : List Char → List Char) (w : EnhancedWatcher) (fs : FileSystem)
    (now : Nat) {file : List Char} (hfile : fs w.filePath = some file) (hne : file ≠ []) :
    (watch md5 w fs now).watcher =
      cycled md5 now w (sliceLast 10 (fileLines (file.drop (file.length - w.bufferSize)))) := by
  have hsize : w.getFileSize fs ≠ 0 := by
    simp [getFileSize, hfile, hne]
  unfold watch
  simp only [if_neg hsize, readLastLines_of_file w fs 10 hfile, watchLine_foldl,
    checkFileRotation_watcher]
  rfl

/-- C7: rotation is decided by `size ≥ rotationSize`.  For a file of size at least
`rotationSize`, one `checkFileRotation` call at clock value `t` moves the old content to
the path `filePath.t`, leaves `filePath` present with empty content (size 0), changes no
other path and emits `fileRotated` with the rotated path (the rotated path is handed to
`compressFile` when compression is enabled).  For a file of size below `rotationSize` the
call changes no file and emits nothing. -/
theorem C7_rotation_by_size (w : EnhancedWatcher) (fs : FileSystem) (file : List Char)
    (t : Nat) (hfile : fs w.filePath = some file) :
    (w.rotationSize ≤ file.length →
      (w.checkFileRotation fs t).fs (w.filePath ++ '.' :: Nat.toDigits 10 t) = some file ∧
      (w.checkFileRotation fs t).fs w.filePath = some [] ∧
      getFileSize w (w.checkFileRotation fs t).fs = 0 ∧
      (w.checkFileRotation fs t).events =
        [Event.fileRotated (w.filePath ++ '.' :: Nat.toDigits 10 t)] ∧
      (w.checkFileRotation fs t).compressions =
        (if w.compressionEnabled then [w.filePath ++ '.' :: Nat.toDigits 10 t] else []) ∧
      ∀ p : Path, p ≠ w.filePath → p ≠ w.filePath ++ '.' :: Nat.toDigits 10 t →
        (w.checkFileRotation fs t).fs p = fs p) ∧
    (file.length < w.rotationSize →
      (w.checkFileRotation fs t).fs = fs ∧ (w.checkFileRotation fs t).events = [] ∧
      (w.checkFileRotation fs t).compressions = []) := by
  have hne : w.filePath ++ '.' :: Nat.toDigits 10 t ≠ w.filePath := by
    intro h
    have := congrArg List.length h
    simp at this
  constructor
  · intro hge
    have hrot : w.checkFileRotation fs t =
        { watcher := w
          fs := (fs.rename w.filePath (w.filePath ++ '.' :: Nat.toDigits 10 t)).writeFile
            w.filePath []
          events := [Event.fileRotated (w.filePath ++ '.' :: Nat.toDigits 10 t)]
          compressions :=
            if w.compressionEnabled then [w.filePath ++ '.' :: Nat.toDigits 10 t] else [] } := by
      unfold checkFileRotation
      rw [hfile]
      simp only [ge_iff_le, if_pos hge]
    rw [hrot]
    refine ⟨?_, ?_, ?_, rfl, rfl, ?_⟩
    · simp [FileSystem.writeFile, FileSystem.rename, hfile]
    · simp [FileSystem.writeFile]
    · simp [FileSystem.writeFile, getFileSize]
    · intro p h1 h2
      simp [FileSystem.writeFile, FileSystem.rename, h1, h2]
  · intro hlt
    have hnot : ¬ w.rotationSize ≤ file.length := by omega
    have hrot : w.checkFileRotation fs t =
        { watcher := w, fs := fs, events := [], compressions := [] } := by
      unfold checkFileRotation
      rw [hfile]
      simp only [ge_iff_le, if_neg hnot]
    rw [hrot]
    exact ⟨rfl, rfl, rfl⟩

/-- C7 with `rotationSize = 3` at clock value 1700: a file of exactly 3 bytes is rotated to
`test.log.1700`, a file of 2 bytes is left alone. -/
theorem C7_rotation_by_size_witness :
    (singleFile "test.log".data "abc".data demoRotationWatcher.filePath = some "abc".data ∧
      (demoRotationWatcher.checkFileRotation (singleFile "test.log".data "abc".data) 1700).fs
          "test.log.1700".data = some "abc".data ∧
      (demoRotationWatcher.checkFileRotation (singleFile "test.log".data "abc".data) 1700).fs
          "test.log".data = some [] ∧
      (demoRotationWatcher.checkFileRotation (singleFile "test.log".data "abc".data) 1700).events
          = [Event.fileRotated "test.log.1700".data]) ∧
    (singleFile "test.log".data "ab".data demoRotationWatcher.filePath = some "ab".data ∧
      (demoRotationWatcher.checkFileRotation (singleFile "test.log".data "ab".data) 1700).fs
          = singleFile "test.log".data "ab".data ∧
      (demoRotationWatcher.checkFileRotation (singleFile "test.log".data "ab".data) 1700).events
          = []) :=
  have hit := (C7_rotation_by_size demoRotationWatcher (singleFile "test.log".data "abc".data)
    "abc".data 1700 rfl).1 (by decide)
  have miss := (C7_rotation_by_size demoRotationWatcher (singleFile "test.log".data "ab".data)
    "ab".data 1700 rfl).2 (by decide)
  ⟨⟨rfl, hit.1, hit.2.1, hit.2.2.2.1⟩, ⟨rfl, miss.1, miss.2.1⟩⟩

/-- C10 (amended): for every watcher state, a second `stop()` changes no watcher state and
no file, but it emits `stopped` once more: `stop(); stop()` leaves the state that `stop()`
leaves and emits two `stopped` events. -/
theorem C10_stop_twice_state (w : EnhancedWatcher) (fs fs2 : FileSystem) :
    ((w.stop fs).watcher.stop fs2).watcher = (w.stop fs).watcher ∧
    ((w.stop fs).watcher.stop fs2).fs = fs2 ∧
    ((w.stop fs).watcher.stop fs2).compressions = [] ∧
    ((w.stop fs).watcher.stop fs2).events = [Event.stopped] ∧
    (w.stop fs).events ++ ((w.stop fs).watcher.stop fs2).events
      = [Event.stopped, Event.stopped] := by
  refine ⟨?_, rfl, rfl, rfl, rfl⟩
  unfold stop
  cases w.watcher <;> cases w.heartbeat <;> rfl

/-- C10 fails as stated: on a freshly constructed watcher that has been stopped, the second
`stop()` emits a `stopped` event. -/
theorem C10_second_stop_emits :
    ((demoWatcher.stop (singleFile "test.log".data [])).watcher.stop
        (singleFile "test.log".data [])).events = [Event.stopped] ∧
    ((demoWatcher.stop (singleFile "test.log".data [])).watcher.stop
        (singleFile "test.log".data [])).events ≠ [] := by
  constructor
  · rfl
  · simp [stop]

/-- A `watch()` cycle on a non-empty file halves the sum of the old average and the time
since the last update, and keeps the path. -/
theorem watch_average (md5 : List Char → List Char) (w : EnhancedWatcher) (fs : FileSystem)
    (now : Nat) (h : w.getFileSize fs ≠ 0) :
    (watch md5 w fs now).watcher.logStats.averageUpdateInterval =
        (w.logStats.averageUpdateInterval + ((now : ℚ) - (w.logStats.lastUpdate : ℚ))) / 2 ∧
      (watch md5 w fs now).watcher.logStats.lastUpdate = now ∧
      (watch md5 w fs now).watcher.filePath = w.filePath := by
  cases hfile : fs w.filePath with
  | none => simp [getFileSize, hfile] at h
  | some file =>
    have hne : file ≠ [] := by
      rintro rfl
      simp [getFileSize, hfile] at h
    rw [watch_of_file md5 w fs now hfile hne]
    exact ⟨rfl, rfl, rfl⟩

/-- C8 (amended): starting from a freshly constructed watcher, after the first two `watch()`
cycles on a non-empty file with update intervals `d1` and then `d2`, the value of
`averageUpdateInterval` is `(d1 / 2 + d2) / 2 = d1 / 4 + d2 / 2` (exact rational
arithmetic). -/
theorem C8_average_after_two_cycles (md5 : List Char → List Char) (options : Options)
    (t0 d1 d2 : Nat) (fs1 fs2 : FileSystem)
    (h1 : (EnhancedWatcher.new options t0).getFileSize fs1 ≠ 0)
    (h2 : (EnhancedWatcher.new options t0).getFileSize fs2 ≠ 0) :
    (watch md5 (watch md5 (EnhancedWatcher.new options t0) fs1 (t0 + d1)).watcher fs2
        (t0 + d1 + d2)).watcher.logStats.averageUpdateInterval
      = (d1 : ℚ) / 4 + (d2 : ℚ) / 2 := by
  obtain ⟨a1, l1, p1⟩ := watch_average md5 (EnhancedWatcher.new options t0) fs1 (t0 + d1) h1
  have h2b : (watch md5 (EnhancedWatcher.new options t0) fs1 (t0 + d1)).watcher.getFileSize fs2
      ≠ 0 := by
    unfold getFileSize at h2 ⊢
    rw [p1]
    exact h2
  obtain ⟨a2, _, _⟩ := watch_average md5 _ fs2 (t0 + d1 + d2) h2b
  rw [a2, a1, l1]
  have hz : (EnhancedWatcher.new options t0).logStats.averageUpdateInterval = 0 := rfl
  have ht : (EnhancedWatcher.new options t0).logStats.lastUpdate = t0 := rfl
  rw [hz, ht]
  push_cast
  ring

/-- C8 (amended) on a one-byte file, with the watcher constructed at clock value 0 and the
cycles at clock values 2 and 6 (intervals 2 and 4). -/
theorem C8_average_after_two_cycles_witness :
    (EnhancedWatcher.new {} 0).getFileSize (singleFile "test.log".data "x".data) ≠ 0 ∧
    (watch noDigest
        (watch noDigest (EnhancedWatcher.new {} 0) (singleFile "test.log".data "x".data)
          (0 + 2)).watcher
        (singleFile "test.log".data "x".data) (0 + 2 + 4)).watcher.logStats.averageUpdateInterval
      = ((2 : Nat) : ℚ) / 4 + ((4 : Nat) : ℚ) / 2 :=
  ⟨by decide,
    C8_average_after_two_cycles noDigest {} 0 2 4 (singleFile "test.log".data "x".data)
      (singleFile "test.log".data "x".data) (by decide) (by decide)⟩

/-- C8 fails as stated: with intervals `d1 = 2` and `d2 = 4` the average after two cycles is
`5 / 2`, not `(2 + 4) / 2 = 3`. -/
theorem C8_average_is_not_the_mean :
    (watch noDigest (watch noDigest demoWatcher (singleFile "test.log".data "x".data) 2).watcher
        (singleFile "test.log".data "x".data) 6).watcher.logStats.averageUpdateInterval
      = 5 / 2 ∧
    (watch noDigest (watch noDigest demoWatcher (singleFile "test.log".data "x".data) 2).watcher
        (singleFile "test.log".data "x".data) 6).watcher.logStats.averageUpdateInterval
      ≠ ((2 : ℚ) + 4) / 2 := by
  obtain ⟨a1, l1, p1⟩ :=
    watch_average noDigest demoWatcher (singleFile "test.log".data "x".data) 2 (by decide)
  obtain ⟨a2, _, _⟩ :=
    watch_average noDigest
      (watch noDigest demoWatcher (singleFile "test.log".data "x".data) 2).watcher
      (singleFile "test.log".data "x".data) 6 (by decide)
  have hz : demoWatcher.logStats.averageUpdateInterval = 0 := rfl
  have ht : demoWatcher.logStats.lastUpdate = 0 := rfl
  rw [a2, a1, l1, hz, ht]
  constructor <;> norm_num

theorem orDefault_pos (x : Option Nat) {d : Nat} (hd : 1 ≤ d) : 1 ≤ orDefault x d := by
  cases x with
  | none => simpa [orDefault] using hd
  | some n =>
    cases n with
    | zero => simpa [orDefault] using hd
    | succ n => simp [orDefault]

theorem storeReached_new (options : Options) (now : Nat) :
    StoreReached (EnhancedWatcher.new options now) :=
  ⟨orDefault_pos _ (by decide), [], CircularBuffer.reached_new (orDefault_pos _ (by decide))⟩

theorem storeReached_ingested (md5 : List Char → List Char) (now : Nat) {w : EnhancedWatcher}
    (h : StoreReached w) (lines : List (List Char)) : StoreReached (ingested md5 now w lines) := by
  obtain ⟨h1, xs, hxs⟩ := h
  exact ⟨h1, _, CircularBuffer.reached_pushAll_aux h1 _ xs w.store hxs⟩

theorem countersLe_refl (w : EnhancedWatcher) : CountersLe w w :=
  ⟨le_refl _, le_refl _, le_refl _⟩

theorem countersLe_trans {a b c : EnhancedWatcher} (h1 : CountersLe a b) (h2 : CountersLe b c) :
    CountersLe a c :=
  ⟨h1.1.trans h2.1, h1.2.1.trans h2.2.1, h1.2.2.trans h2.2.2⟩

theorem countersLe_ingested (md5 : List Char → List Char) (now : Nat) (w : EnhancedWatcher)
    (lines : List (List Char)) : CountersLe w (ingested md5 now w lines) :=
  ⟨Nat.le_add_right _ _, Nat.le_add_right _ _, Nat.le_add_right _ _⟩

theorem watch_ok (md5 : List Char → List Char) {w : EnhancedWatcher} (h : StoreReached w)
    (fs : FileSystem) (now : Nat) :
    StoreReached (watch md5 w fs now).watcher ∧ CountersLe w (watch md5 w fs now).watcher := by
  cases hfile : fs w.filePath with
  | none =>
    rw [watch_of_empty md5 w fs now (by simp [getFileSize, hfile])]
    exact ⟨h, countersLe_refl w⟩
  | some file =>
    by_cases hne : file = []
    · rw [watch_of_empty md5 w fs now (by simp [getFileSize, hfile, hne])]
      exact ⟨h, countersLe_refl w⟩
    · rw [watch_of_file md5 w fs now hfile hne]
      exact ⟨storeReached_ingested md5 now h _, countersLe_ingested md5 now w _⟩

theorem stop_ok {w : EnhancedWatcher} (h : StoreReached w) (fs : FileSystem) :
    StoreReached (w.stop fs).watcher ∧ CountersLe w (w.stop fs).watcher :=
  ⟨h, countersLe_refl w⟩

theorem start_of_file (md5 : List Char → List Char) {w : EnhancedWatcher} (h : StoreReached w)
    (fs : FileSystem) (now : Nat) {file : List Char} (hfile : fs w.filePath = some file) :
    ∃ out : Outcome, start md5 w fs now = some out ∧
      out.watcher.maxLines = w.maxLines ∧
      out.watcher.store =
        (ingested md5 now w
          (sliceLast w.maxLines (fileLines (file.drop (file.length - w.bufferSize))))).store ∧
      out.watcher.logStats =
        (ingested md5 now w
          (sliceLast w.maxLines (fileLines (file.drop (file.length - w.bufferSize))))).logStats := by
  obtain ⟨h1, xs, hxs⟩ := storeReached_ingested md5 now h
    (sliceLast w.maxLines (fileLines (file.drop (file.length - w.bufferSize))))
  have hget := CircularBuffer.getAll_of_reached h1 hxs
  unfold start
  rw [readLastLines_of_file w fs _ hfile]
  simp only [startLine_foldl]
  rw [hget]
  exact ⟨_, rfl, rfl, rfl, rfl⟩

theorem start_ok (md5 : List Char → List Char) {w : EnhancedWatcher} (h : StoreReached w)
    (fs : FileSystem) (now : Nat) :
    ∃ out : Outcome, start md5 w fs now = some out ∧ StoreReached out.watcher ∧
      CountersLe w out.watcher := by
  cases hfile : fs w.filePath with
  | none =>
    refine ⟨{ watcher := w, fs := fs, events := [Event.error (FsError.ENOENT w.filePath)],
              compressions := [] }, ?_, h, countersLe_refl w⟩
    simp only [start, readLastLines, hfile]
  | some file =>
    obtain ⟨out, hout, hmax, hstore, hstats⟩ := start_of_file md5 h fs now hfile
    have hr := storeReached_ingested md5 now h
      (sliceLast w.maxLines (fileLines (file.drop (file.length - w.bufferSize))))
    have hc := countersLe_ingested md5 now w
      (sliceLast w.maxLines (fileLines (file.drop (file.length - w.bufferSize))))
    refine ⟨out, hout, ?_, ?_⟩
    · unfold StoreReached
      rw [hmax, hstore]
      exact hr
    · unfold CountersLe
      rw [hstats]
      exact hc

theorem restart_ok (md5 : List Char → List Char) {w : EnhancedWatcher} (h : StoreReached w)
    (fs : FileSystem) (now : Nat) :
    ∃ out : Outcome, restart md5 w fs now = some out ∧ StoreReached out.watcher ∧
      CountersLe w out.watcher := by
  obtain ⟨out, hout, hwf, hle⟩ := start_ok md5 (stop_ok h fs).1 fs now
  refine ⟨{ out with events := (w.stop fs).events ++ out.events ++ [Event.restarted] }, ?_,
    hwf, countersLe_trans (stop_ok h fs).2 hle⟩
  have : (w.stop fs).fs = fs := rfl
  simp only [restart, this, hout]

theorem heartbeatTick_ok (md5 : List Char → List Char) {w : EnhancedWatcher}
    (h : StoreReached w) (fs : FileSystem) (now : Nat) :
    ∃ out : Outcome, heartbeatTick md5 w fs now = some out ∧ StoreReached out.watcher ∧
      CountersLe w out.watcher := by
  unfold heartbeatTick
  split_ifs
  · obtain ⟨out, hout, hwf, hle⟩ := restart_ok md5 h fs now
    exact ⟨{ out with events := Event.watcherStalled :: out.events }, by rw [hout], hwf, hle⟩
  · exact ⟨_, rfl, h, countersLe_refl w⟩
  · exact ⟨_, rfl, h, countersLe_refl w⟩

theorem step_ok (md5 : List Char → List Char) {w : EnhancedWatcher} (h : StoreReached w)
    (op : Op) :
    ∃ out : Outcome, step md5 w op = some out ∧ StoreReached out.watcher ∧
      CountersLe w out.watcher := by
  cases op with
  | start fs now => exact start_ok md5 h fs now
  | watch fs now => exact ⟨_, rfl, (watch_ok md5 h fs now).1, (watch_ok md5 h fs now).2⟩
  | stop fs => exact ⟨_, rfl, (stop_ok h fs).1, (stop_ok h fs).2⟩
  | heartbeat fs now => exact heartbeatTick_ok md5 h fs now

theorem run_ok (md5 : List Char → List Char) (ops : List Op) :
    ∀ {w : EnhancedWatcher}, StoreReached w →
      ∃ w2 : EnhancedWatcher, run md5 w ops = some w2 ∧ StoreReached w2 ∧ CountersLe w w2 := by
  induction ops with
  | nil => intro w h; exact ⟨w, rfl, h, countersLe_refl w⟩
  | cons op ops ih =>
    intro w h
    obtain ⟨out, hout, hwf, hle⟩ := step_ok md5 h op
    obtain ⟨w2, hrun, hwf2, hle2⟩ := ih hwf
    exact ⟨w2, by simp only [run, hout, hrun], hwf2, countersLe_trans hle hle2⟩

theorem run_append (md5 : List Char → List Char) (ops1 ops2 : List Op) :
    ∀ w : EnhancedWatcher,
      run md5 w (ops1 ++ ops2) = (run md5 w ops1).bind (fun w1 => run md5 w1 ops2) := by
  induction ops1 with
  | nil => intro w; rfl
  | cons op ops ih =>
    intro w
    simp only [List.cons_append, run]
    cases step md5 w op with
    | none => rfl
    | some out => exact ih out.watcher

/-- C9: the counters `totalLines`, `errorCount` and `warningCount` never decrease.  From a
freshly constructed watcher, every sequence of operations (start with its backfill, watch
cycle, stop, heartbeat tick with its stall-triggered restart) on any file systems and
clock values runs to completion, and the counters after a longer sequence are at least
those after any of its prefixes.  In particular `restart()` from any state so reached
completes and leaves each counter at least as large as before. -/
theorem C9_counters_monotonic (md5 : List Char → List Char) (options : Options) (t0 : Nat)
    (ops1 ops2 : List Op) :
    ∃ w1 w2 : EnhancedWatcher,
      run md5 (EnhancedWatcher.new options t0) ops1 = some w1 ∧
      run md5 (EnhancedWatcher.new options t0) (ops1 ++ ops2) = some w2 ∧
      w1.logStats.totalLines ≤ w2.logStats.totalLines ∧
      w1.logStats.errorCount ≤ w2.logStats.errorCount ∧
      w1.logStats.warningCount ≤ w2.logStats.warningCount ∧
      ∀ (fs : FileSystem) (now : Nat), ∃ out : Outcome,
        restart md5 w1 fs now = some out ∧
        w1.logStats.totalLines ≤ out.watcher.logStats.totalLines ∧
        w1.logStats.errorCount ≤ out.watcher.logStats.errorCount ∧
        w1.logStats.warningCount ≤ out.watcher.logStats.warningCount := by
  obtain ⟨w1, h1, hwf1, _⟩ := run_ok md5 ops1 (storeReached_new options t0)
  obtain ⟨w2, h2, _, hle⟩ := run_ok md5 ops2 hwf1
  refine ⟨w1, w2, h1, ?_, hle.1, hle.2.1, hle.2.2, ?_⟩
  · rw [run_append, h1]; exact h2
  · intro fs now
    obtain ⟨out, hout, _, hle2⟩ := restart_ok md5 hwf1 fs now
    exact ⟨out, hout, hle2.1, hle2.2.1, hle2.2.2⟩

theorem sliceLast_of_length_le {β : Type} {count : Nat} {xs : List β} (h : xs.length ≤ count) :
    sliceLast count xs = xs := by
  unfold sliceLast
  split_ifs
  · rfl
  · rw [Nat.sub_eq_zero_of_le h, List.drop_zero]

theorem watch_of_small_file (md5 : List Char → List Char) (w : EnhancedWatcher)
    (fs : FileSystem) (now : Nat) (hne : watchedFile w.filePath fs ≠ [])
    (hwin : (watchedFile w.filePath fs).length ≤ w.bufferSize)
    (hten : (fileLines (watchedFile w.filePath fs)).length ≤ 10) :
    (watch md5 w fs now).watcher = cycled md5 now w (fileLines (watchedFile w.filePath fs)) := by
  cases hfile : fs w.filePath with
  | none => simp [watchedFile, hfile] at hne
  | some file =>
    have hw : watchedFile w.filePath fs = file := by simp [watchedFile, hfile]
    rw [hw] at hne hwin hten ⊢
    rw [watch_of_file md5 w fs now hfile hne, Nat.sub_eq_zero_of_le hwin, List.drop_zero,
      sliceLast_of_length_le hten]

theorem pushAll_append {α : Type} (s : CircularBuffer α) (xs ys : List α) :
    s.pushAll (xs ++ ys) = (s.pushAll xs).pushAll ys := by
  simp [CircularBuffer.pushAll]

theorem runCycles_small_files (md5 : List Char → List Char) (cycles : List (FileSystem × Nat)) :
    ∀ w : EnhancedWatcher,
      (∀ c ∈ cycles, watchedFile w.filePath c.1 ≠ [] ∧
        (watchedFile w.filePath c.1).length ≤ w.bufferSize ∧
        (fileLines (watchedFile w.filePath c.1)).length ≤ 10) →
      (runCycles md5 w cycles).maxLines = w.maxLines ∧
      (runCycles md5 w cycles).store =
        w.store.pushAll (recordsSeen md5 w.filePath cycles) ∧
      (runCycles md5 w cycles).logStats.totalLines =
        w.logStats.totalLines + (linesSeen w.filePath cycles).length ∧
      (runCycles md5 w cycles).logStats.errorCount =
        w.logStats.errorCount +
          (linesSeen w.filePath cycles).countP (fun l => lineType l = LogType.ERROR) ∧
      (runCycles md5 w cycles).logStats.warningCount =
        w.logStats.warningCount +
          (linesSeen w.filePath cycles).countP (fun l => lineType l = LogType.WARNING) := by
  induction cycles with
  | nil =>
    intro w _
    simp [runCycles, recordsSeen, linesSeen, CircularBuffer.pushAll]
  | cons c cycles ih =>
    intro w h
    obtain ⟨hne, hwin, hten⟩ := h c (List.mem_cons_self _ _)
    have hstep := watch_of_small_file md5 w c.1 c.2 hne hwin hten
    have hrun : runCycles md5 w (c :: cycles) =
        runCycles md5 (cycled md5 c.2 w (fileLines (watchedFile w.filePath c.1))) cycles := by
      simp only [runCycles, List.foldl_cons, hstep]
    have ih2 := ih (cycled md5 c.2 w (fileLines (watchedFile w.filePath c.1)))
      (fun d hd => h d (List.mem_cons_of_mem _ hd))
    rw [hrun]
    obtain ⟨i1, i2, i3, i4, i5⟩ := ih2
    refine ⟨i1, ?_, ?_, ?_, ?_⟩
    · rw [i2]
      simp only [cycled, ingested, recordsSeen, List.flatMap_cons, pushAll_append]
    · rw [i3]
      simp only [cycled, ingested, linesSeen, List.flatMap_cons, List.length_append]
      omega
    · rw [i4]
      simp only [cycled, ingested, linesSeen, List.flatMap_cons, List.countP_append]
      omega
    · rw [i5]
      simp only [cycled, ingested, linesSeen, List.flatMap_cons, List.countP_append]
      omega

/-- C5 (amended): every `watch()` cycle reads the whole file again and counts its lines
again.  Starting from a freshly constructed watcher, when at every cycle the file is
non-empty, fits in the read window and holds at most 10 non-empty lines, then after the
cycles `getStats()` reports as `totalLines` the number of lines found over all cycles
together (a line found at two cycles counts twice), as `errorCount` and `warningCount` the
numbers of ERROR and WARNING lines among them; and when that number of lines is below the
store capacity, `store.getAll()` returns the records of the lines found at the first cycle,
then those found at the second cycle, and so on. -/
theorem C5_cycles_recount (md5 : List Char → List Char) (options : Options) (t0 : Nat)
    (cycles : List (FileSystem × Nat)) (fs : FileSystem)
    (hne : ∀ c ∈ cycles, watchedFile (EnhancedWatcher.new options t0).filePath c.1 ≠ [])
    (hwin : ∀ c ∈ cycles, (watchedFile (EnhancedWatcher.new options t0).filePath c.1).length ≤
      (EnhancedWatcher.new options t0).bufferSize)
    (hten : ∀ c ∈ cycles,
      (fileLines (watchedFile (EnhancedWatcher.new options t0).filePath c.1)).length ≤ 10) :
    (∃ stats : Stats,
      (runCycles md5 (EnhancedWatcher.new options t0) cycles).getStats fs = some stats ∧
      stats.logStats.totalLines =
        (linesSeen (EnhancedWatcher.new options t0).filePath cycles).length ∧
      stats.logStats.errorCount =
        (linesSeen (EnhancedWatcher.new options t0).filePath cycles).countP
          (fun l => lineType l = LogType.ERROR) ∧
      stats.logStats.warningCount =
        (linesSeen (EnhancedWatcher.new options t0).filePath cycles).countP
          (fun l => lineType l = LogType.WARNING)) ∧
    ((linesSeen (EnhancedWatcher.new options t0).filePath cycles).length <
        (EnhancedWatcher.new options t0).maxLines →
      (runCycles md5 (EnhancedWatcher.new options t0) cycles).store.getAll =
        some (recordsSeen md5 (EnhancedWatcher.new options t0).filePath cycles)) := by
  obtain ⟨h1, h2, h3, h4, h5⟩ := runCycles_small_files md5 cycles (EnhancedWatcher.new options t0)
    (fun c hc => ⟨hne c hc, hwin c hc, hten c hc⟩)
  have hN : 1 ≤ (EnhancedWatcher.new options t0).maxLines := (storeReached_new options t0).1
  have hget := CircularBuffer.getAll_pushAll hN
    (recordsSeen md5 (EnhancedWatcher.new options t0).filePath cycles)
  have hstore : (EnhancedWatcher.new options t0).store =
      CircularBuffer.new (EnhancedWatcher.new options t0).maxLines := rfl
  rw [← hstore, ← h2] at hget
  have hlen : (recordsSeen md5 (EnhancedWatcher.new options t0).filePath cycles).length =
      (linesSeen (EnhancedWatcher.new options t0).filePath cycles).length := by
    simp [recordsSeen, linesSeen, List.length_flatMap, Function.comp_def]
  have hz : (EnhancedWatcher.new options t0).logStats.totalLines = 0 ∧
      (EnhancedWatcher.new options t0).logStats.errorCount = 0 ∧
      (EnhancedWatcher.new options t0).logStats.warningCount = 0 := ⟨rfl, rfl, rfl⟩
  rw [hz.1, Nat.zero_add] at h3
  rw [hz.2.1, Nat.zero_add] at h4
  rw [hz.2.2, Nat.zero_add] at h5
  constructor
  · unfold getStats
    rw [hget]
    exact ⟨_, rfl, h3, h4, h5⟩
  · intro hcap
    rw [hget]
    rw [hlen, Nat.sub_eq_zero_of_le (by omega), List.drop_zero]

/-- C5 (amended) on the two cycles of `demoCycles`: five lines are counted. -/
theorem C5_cycles_recount_witness :
    (∀ c ∈ demoCycles, watchedFile (EnhancedWatcher.new {} 0).filePath c.1 ≠ []) ∧
    (∀ c ∈ demoCycles, (watchedFile (EnhancedWatcher.new {} 0).filePath c.1).length ≤
      (EnhancedWatcher.new {} 0).bufferSize) ∧
    (∀ c ∈ demoCycles,
      (fileLines (watchedFile (EnhancedWatcher.new {} 0).filePath c.1)).length ≤ 10) ∧
    (linesSeen (EnhancedWatcher.new {} 0).filePath demoCycles).length = 5 ∧
    (∃ stats : Stats,
      (runCycles noDigest (EnhancedWatcher.new {} 0) demoCycles).getStats
          (singleFile "test.log".data []) = some stats ∧
      stats.logStats.totalLines =
        (linesSeen (EnhancedWatcher.new {} 0).filePath demoCycles).length ∧
      stats.logStats.errorCount =
        (linesSeen (EnhancedWatcher.new {} 0).filePath demoCycles).countP
          (fun l => lineType l = LogType.ERROR) ∧
      stats.logStats.warningCount =
        (linesSeen (EnhancedWatcher.new {} 0).filePath demoCycles).countP
          (fun l => lineType l = LogType.WARNING)) ∧
    ((linesSeen (EnhancedWatcher.new {} 0).filePath demoCycles).length <
        (EnhancedWatcher.new {} 0).maxLines →
      (runCycles noDigest (EnhancedWatcher.new {} 0) demoCycles).store.getAll =
        some (recordsSeen noDigest (EnhancedWatcher.new {} 0).filePath demoCycles)) :=
  have h := C5_cycles_recount noDigest {} 0 demoCycles (singleFile "test.log".data [])
    (by decide) (by decide) (by decide)
  ⟨by decide, by decide, by decide, by decide, h.1, h.2⟩

/-- C5 fails as stated: on the claim's own example (two lines at the first cycle, the same
two lines and a third at the second cycle) the watcher counts 5 lines, 2 of them ERROR and
1 WARNING, and the store holds five records: the first two lines twice, then the third. -/
theorem C5_second_cycle_recounts :
    (runCycles noDigest demoWatcher demoCycles).logStats.totalLines = 5 ∧
    (runCycles noDigest demoWatcher demoCycles).logStats.errorCount = 2 ∧
    (runCycles noDigest demoWatcher demoCycles).logStats.warningCount = 1 ∧
    (runCycles noDigest demoWatcher demoCycles).store.getAll.map
        (fun recs => recs.map (fun r => r.content))
      = some ["100 [INFO] a".data, "200 [ERROR] b".data, "100 [INFO] a".data,
          "200 [ERROR] b".data, "300 [WARNING] c".data] ∧
    ¬ ((runCycles noDigest demoWatcher demoCycles).logStats.totalLines = 3 ∧
        (runCycles noDigest demoWatcher demoCycles).logStats.errorCount = 1) := by
  decide

end EnhancedWatcher

end LogWatcher
